import Mathlib

/-!
Verification of the element model of the seed virtual-DOM core
(`src/virtual_dom/node/el.rs`). The data model and the operations of
that module are embedded shallowly below; types that the module imports
from elsewhere in the framework (`Tag`, `Attrs`, `Style`,
`EventHandlerManager`, `Node`, `Text`, `Namespace`, the `web_sys`
handle types) are modelled from the specification, as noted on each
definition.
-/

namespace Seed

/-- Identity key, from `el.rs` line 18: `pub struct ElKey(String)`.
Total order and equality are structural on the wrapped string. -/
structure ElKey where
  s : String
deriving DecidableEq, Ord, Repr

/-- From `el.rs` lines 25-27: `el_key` wraps the rendered string. -/
def el_key (key : String) : ElKey := ⟨key⟩

/-- Modelled from the spec: the element's tag identity, "including a
custom variant for non-standard names" (§3); rendering yields the tag
name. The concrete `Tag` enum lives outside the shown module. -/
inductive Tag where
  | named (s : String)
  | custom (s : String)
deriving DecidableEq, Repr

/-- Rendered tag name (the `Display`/`to_string` of `Tag`). -/
def Tag.toStr : Tag → String
  | .named s => s
  | .custom s => s

/-- Modelled from the spec: optional tag namespace, "e.g. SVG"; rendered
as an `xmlns` attribute via its URI string (`Namespace::as_str`). -/
inductive Namespace where
  | svg
  | custom (uri : String)
deriving DecidableEq, Repr

/-- The namespace's URI string. -/
def Namespace.asStr : Namespace → String
  | .svg => "http://www.w3.org/2000/svg"
  | .custom uri => uri

/-- Modelled from the spec: attribute names are stable strings (the
`At` enum outside the shown module renders to these). -/
abbrev At := String

/-- The `class` attribute name (`At::Class`). -/
def At.Class : At := "class"

/-- The `style` attribute name (`At::Style`). -/
def At.StyleAt : At := "style"

/-- The `xmlns` attribute name (`At::Xmlns`). -/
def At.Xmlns : At := "xmlns"

/-- Modelled from the spec: "optional string value (absence of value
still marks presence, e.g. boolean attributes)" (§3). -/
inductive AtValue where
  | Some (v : String)
  | None
deriving DecidableEq, Repr

/-- Modelled from the spec: "ordered mapping from attribute name to
optional string value" (§3). The source's `IndexMap` keeps insertion
order; an insert over an existing key updates the value in place. -/
structure Attrs where
  vals : List (At × AtValue)
deriving DecidableEq, Repr

/-- `Attrs::empty`. -/
def Attrs.empty : Attrs := ⟨[]⟩

/-- Insert-or-overwrite on the backing ordered association list: the
first entry holding the key gets the new value and keeps its position;
a missing key is appended at the end (`IndexMap::insert`). -/
def Attrs.insertGo (k : At) (v : AtValue) : List (At × AtValue) → List (At × AtValue)
  | [] => [(k, v)]
  | (k', v') :: rest => if k' = k then (k, v) :: rest else (k', v') :: Attrs.insertGo k v rest

/-- `IndexMap::insert` on `Attrs.vals`. -/
def Attrs.insert (a : Attrs) (k : At) (v : AtValue) : Attrs :=
  ⟨Attrs.insertGo k v a.vals⟩

/-- `Attrs::add(key, value)`: store the rendered string value. -/
def Attrs.add (a : Attrs) (k : At) (v : String) : Attrs :=
  a.insert k (AtValue.Some v)

/-- `entry(k).and_modify(g).or_insert(dflt)` on the ordered map: modify
the value under `k` in place when present, append `(k, dflt)` when
absent. -/
def Attrs.entryGo (k : At) (g : AtValue → AtValue) (dflt : AtValue) :
    List (At × AtValue) → List (At × AtValue)
  | [] => [(k, dflt)]
  | (k', v) :: rest =>
    if k' = k then (k', g v) :: rest else (k', v) :: Attrs.entryGo k g dflt rest

/-- Modelled from the spec: the `Display` of `Attrs` renders entries in
stored order, `name="value"` for valued entries and the bare name for
boolean attributes, separated by single spaces. -/
def Attrs.toStr (a : Attrs) : String :=
  String.intercalate " " (a.vals.map (fun p =>
    match p.2 with
    | AtValue.Some v => p.1 ++ "=\"" ++ v ++ "\""
    | AtValue.None => p.1))

/-- Modelled from the spec: style property names are strings. -/
abbrev St := String

/-- Modelled from the spec: "mapping from style property to value,
rendered as a single synthesized `style` attribute" (§3); ordered, with
insert-or-overwrite like `Attrs`. -/
structure Style where
  vals : List (St × String)
deriving DecidableEq, Repr

/-- `Style::empty`. -/
def Style.empty : Style := ⟨[]⟩

/-- Insert-or-overwrite for `Style`, mirroring `Attrs.insertGo`. -/
def Style.insertGo (k : St) (v : String) : List (St × String) → List (St × String)
  | [] => [(k, v)]
  | (k', v') :: rest => if k' = k then (k, v) :: rest else (k', v') :: Style.insertGo k v rest

/-- `Style.vals.insert`. -/
def Style.insert (s : Style) (k : St) (v : String) : Style :=
  ⟨Style.insertGo k v s.vals⟩

/-- Modelled from the spec: the rendered `style` attribute value,
`prop:value` pairs in stored order. -/
def Style.toStr (s : Style) : String :=
  String.intercalate ";" (s.vals.map (fun p => p.1 ++ ":" ++ p.2))

/-- Modelled from the spec: opaque native node handle (`web_sys::Node`),
"an opaque handle type used only as a pass-through" (§6); a token. -/
abbrev WebSysNode := Nat

/-- Modelled from the spec: opaque shared back-reference to a native
node (`SharedNodeWs`), an observer token. -/
abbrev SharedNodeWs := Nat

/-- Modelled from the spec: one event binding, an "(event-name,
handler) pair scoped to one message type" (§3); the handler turns an
opaque browser event (a token) into an optional message. -/
structure EventHandler (M : Type) where
  trigger : String
  callback : Nat → Option M

/-- Modelled from the spec: the Event Handler Registration Set, "an
ordered collection of (event-name, handler) pairs" (§3). -/
abbrev EventHandlerManager (M : Type) := List (EventHandler M)

/-- `EventHandlerManager::new`: the empty registration set. -/
def EventHandlerManager.new {M : Type} : EventHandlerManager M := []

/-- Modelled from the spec: "a clone of a node yields an empty
registration set, because a bound listener is a resource tied to one
specific native handle" (§3). The concrete `Clone` impl lives outside
the shown module. -/
def EventHandlerManager.clone {M : Type} (_m : EventHandlerManager M) :
    EventHandlerManager M := []

/-- `EventHandlerManager::add_event_handlers`: append registrations. -/
def EventHandlerManager.add_event_handlers {M : Type}
    (m : EventHandlerManager M) (hs : List (EventHandler M)) : EventHandlerManager M :=
  m ++ hs

/-- Modelled from the spec: retyping of the registration set rewrites
every handler by post-composing the conversion function (§4.2). -/
def EventHandlerManager.map_msg {M N : Type}
    (m : EventHandlerManager M) (f : M → N) : EventHandlerManager N :=
  m.map (fun h => ⟨h.trigger, fun ev => (h.callback ev).map f⟩)

/-- From `el.rs` line 317: a post-insertion callback, a shared function
from the freshly attached native element handle (a token here) to an
optional message. -/
structure InsertEventHandler (M : Type) where
  callback : Nat → Option M

/-- Modelled from the spec: "Text Node — a leaf holding literal text
content" (§3). -/
structure Text where
  text : String
deriving DecidableEq, Repr

/-- `Text::new`. -/
def Text.new (t : String) : Text := ⟨t⟩

mutual
/-- Modelled from the spec: "Node — tagged union over {Element, Text}"
(§3; other variants are out of scope there). -/
inductive Node (M : Type) : Type where
  | Element : El M → Node M
  | Text : Text → Node M

/-- The element struct, from `el.rs` lines 38-53, fields in declaration
order: `tag`, `attrs`, `style`, `event_handler_manager`, `children`,
`namespace` (here `ns`), `node_ws`, `refs`, `key`, `insert_handlers`. -/
inductive El (M : Type) : Type where
  | mk : Tag → Attrs → Style → EventHandlerManager M → List (Node M) →
      Option Namespace → Option WebSysNode → List SharedNodeWs →
      Option ElKey → List (InsertEventHandler M) → El M
end

variable {M N : Type}

/-- Field projection: `tag`. -/
def El.tag : El M → Tag
  | .mk t _ _ _ _ _ _ _ _ _ => t

/-- Field projection: `attrs`. -/
def El.attrs : El M → Attrs
  | .mk _ a _ _ _ _ _ _ _ _ => a

/-- Field projection: `style`. -/
def El.style : El M → Style
  | .mk _ _ s _ _ _ _ _ _ _ => s

/-- Field projection: `event_handler_manager`. -/
def El.event_handler_manager : El M → EventHandlerManager M
  | .mk _ _ _ m _ _ _ _ _ _ => m

/-- Field projection: `children`. -/
def El.children : El M → List (Node M)
  | .mk _ _ _ _ c _ _ _ _ _ => c

/-- Field projection: the `namespace` field (named `ns` here because
`namespace` is reserved). -/
def El.ns : El M → Option Namespace
  | .mk _ _ _ _ _ n _ _ _ _ => n

/-- Field projection: `node_ws`, the optional attached native handle. -/
def El.node_ws : El M → Option WebSysNode
  | .mk _ _ _ _ _ _ w _ _ _ => w

/-- Field projection: `refs`. -/
def El.refs : El M → List SharedNodeWs
  | .mk _ _ _ _ _ _ _ r _ _ => r

/-- Field projection: `key`. -/
def El.key : El M → Option ElKey
  | .mk _ _ _ _ _ _ _ _ k _ => k

/-- Field projection: `insert_handlers`. -/
def El.insert_handlers : El M → List (InsertEventHandler M)
  | .mk _ _ _ _ _ _ _ _ _ i => i

mutual
/-- The custom `Clone` impl, `el.rs` lines 56-71: every field is cloned
structurally except that the event handler manager is cloned through
`EventHandlerManager.clone` and `insert_handlers` is reset to `[]`. -/
def El.clone : El M → El M
  | .mk tag attrs style ehm children ns nws refs key _ih =>
    .mk tag attrs style (EventHandlerManager.clone ehm) (Node.clone_list children)
      ns nws refs key []

/-- Modelled from the spec: structural clone of a `Node` (the derived
`Clone` of the union, outside the shown module): an element child is
cloned through `El.clone`, a text child by value. -/
def Node.clone : Node M → Node M
  | .Element el => .Element el.clone
  | .Text t => .Text t

/-- Clone of a children list (`Vec::clone` clones each entry). -/
def Node.clone_list : List (Node M) → List (Node M)
  | [] => []
  | n :: rest => n.clone :: Node.clone_list rest
end

/-- The void-element list from `el.rs` lines 101-104. -/
def empty_elements : List String :=
  ["area", "base", "br", "col", "embed", "hr", "img", "input", "link", "meta",
   "param", "source", "track", "wbr"]

/-- The `to_lowercase()` call of `el.rs` line 105: character-wise
lowercasing, written over the string's character list so that it
evaluates inside the kernel. -/
def strToLower (s : String) : String := ⟨s.data.map Char.toLower⟩

mutual
/-- The `Display` impl, `el.rs` lines 73-111: `<tag`, the stored
attributes with the synthesized `style` value (when the rendered style
is non-empty) and the synthesized `xmlns` value (when a namespace is
set) appended, `>`, the children rendered in order, and a closing tag
unless the lowercased tag name is in `empty_elements`. -/
def El.toMarkup : El M → String
  | .mk tag attrs style _ehm children ns _nws _refs _key _ih =>
    let tagStr := tag.toStr
    let output := "<" ++ tagStr
    let attrs1 := if (Style.toStr style).isEmpty then attrs
      else attrs.add At.StyleAt (Style.toStr style)
    let attrs2 := match ns with
      | some n => attrs1.add At.Xmlns n.asStr
      | none => attrs1
    let attributes := Attrs.toStr attrs2
    let output := if attributes.isEmpty then output else output ++ " " ++ attributes
    let output := output ++ ">"
    let output := output ++ Node.toMarkup_list children
    if empty_elements.contains (strToLower tagStr) then output
    else output ++ "</" ++ tagStr ++ ">"

/-- Modelled from the spec: the `Display` of `Node` (outside the shown
module) renders an element through `El.toMarkup` and a text node as its
literal content. -/
def Node.toMarkup : Node M → String
  | .Element el => el.toMarkup
  | .Text t => t.text

/-- Concatenation of the rendered children, in order. -/
def Node.toMarkup_list : List (Node M) → String
  | [] => ""
  | n :: rest => n.toMarkup ++ Node.toMarkup_list rest
end

mutual
/-- `map_msg` for `El`, `el.rs` lines 123-140: `tag`, `attrs`, `style`,
`node_ws`, `namespace`, `refs` and `key` are moved over unchanged, the
children are mapped recursively, the event handler manager is retyped,
and `insert_handlers` is reset to `[]`. -/
def El.map_msg : El M → (M → N) → El N
  | .mk tag attrs style ehm children ns nws refs key _ih, f =>
    .mk tag attrs style (EventHandlerManager.map_msg ehm f)
      (Node.map_msg_list children f) ns nws refs key []

/-- Modelled from the spec: `map_msg` on the union (outside the shown
module) recurses into element children and leaves text unchanged
("recursion is structural and total", §4.2). -/
def Node.map_msg : Node M → (M → N) → Node N
  | .Element el, f => .Element (el.map_msg f)
  | .Text t, _ => .Text t

/-- `map_msg` over a children list, order-preserving. -/
def Node.map_msg_list : List (Node M) → (M → N) → List (Node N)
  | [], _ => []
  | n :: rest, f => n.map_msg f :: Node.map_msg_list rest f
end

/-- `El::empty`, `el.rs` lines 152-165. -/
def El.empty (tag : Tag) : El M :=
  .mk tag Attrs.empty Style.empty EventHandlerManager.new [] none none [] none []

/-- `El::empty_svg`, `el.rs` lines 168-172: `empty` with the namespace
field then set to SVG. -/
def El.empty_svg (tag : Tag) : El M :=
  match (El.empty tag : El M) with
  | .mk t a s ehm c _ nws r k ih => .mk t a s ehm c (some Namespace.svg) nws r k ih

/-- `add_child`, `el.rs` lines 213-216: push onto `children`. -/
def El.add_child : El M → Node M → El M
  | .mk t a s ehm c ns nws r k ih, element => .mk t a s ehm (c ++ [element]) ns nws r k ih

/-- `add_attr`, `el.rs` lines 219-226: `attrs.vals.insert(key, val)`. -/
def El.add_attr : El M → At → AtValue → El M
  | .mk t a s ehm c ns nws r k ih, key, val => .mk t (a.insert key val) s ehm c ns nws r k ih

/-- `add_class`, `el.rs` lines 229-245: `entry(At::Class)`, modifying a
present string value by appending a separating space (only when the
existing value is non-empty) and the class name, overwriting any other
present value with the name, and inserting the name when absent. -/
def El.add_class : El M → String → El M
  | .mk t a s ehm c ns nws r k ih, name =>
    .mk t ⟨Attrs.entryGo At.Class
        (fun av => match av with
          | AtValue.Some v => AtValue.Some ((if v.isEmpty then v else v ++ " ") ++ name)
          | _ => AtValue.Some name)
        (AtValue.Some name) a.vals⟩
      s ehm c ns nws r k ih

/-- `add_style`, `el.rs` lines 248-251: `style.vals.insert(key, val)`. -/
def El.add_style : El M → St → String → El M
  | .mk t a s ehm c ns nws r k ih, key, val => .mk t a (s.insert key val) ehm c ns nws r k ih

/-- `add_event_handler`, `el.rs` lines 254-258: append one registration. -/
def El.add_event_handler : El M → EventHandler M → El M
  | .mk t a s ehm c ns nws r k ih, h =>
    .mk t a s (ehm.add_event_handlers [h]) c ns nws r k ih

/-- `add_text`, `el.rs` lines 261-264: push a new text child. -/
def El.add_text : El M → String → El M
  | .mk t a s ehm c ns nws r k ih, text => .mk t a s ehm (c ++ [Node.Text (Text.new text)]) ns nws r k ih

/-- Modelled from the spec: `Node::is_text` (outside the shown module)
holds exactly on the text variant. -/
def Node.is_text : Node M → Bool
  | .Text _ => true
  | _ => false

/-- Modelled from the spec: `Node::new_text` (outside the shown module)
builds a text node. -/
def Node.new_text (text : String) : Node M := .Text (Text.new text)

/-- `replace_text`, `el.rs` lines 268-272: retain the non-text children,
then push one new text child. -/
def El.replace_text : El M → String → El M
  | .mk t a s ehm c ns nws r k ih, text =>
    .mk t a s ehm ((c.filter (fun node => !node.is_text)) ++ [Node.new_text text]) ns nws r k ih

/-- `get_text`, `el.rs` lines 275-283: concatenate the content of the
text children, in order, with no separator. -/
def El.get_text : El M → String
  | .mk _ _ _ _ c _ _ _ _ _ =>
    String.join (c.filterMap (fun child =>
      match child with
      | .Text t => some t.text
      | _ => none))

mutual
/-- `strip_ws_nodes_from_self_and_children`, `el.rs` lines 304-309:
`node_ws.take()` (leaving `None`), then recurse into the children. -/
def El.strip_ws_nodes_from_self_and_children : El M → El M
  | .mk t a s ehm c ns _nws r k ih =>
    .mk t a s ehm (Node.strip_ws_list c) ns none r k ih

/-- Modelled from the spec: the recursion of `strip` through the union
(outside the shown module): element children are stripped recursively,
text children keep their content. -/
def Node.strip_ws : Node M → Node M
  | .Element el => .Element el.strip_ws_nodes_from_self_and_children
  | .Text t => .Text t

/-- `strip` over a children list. -/
def Node.strip_ws_list : List (Node M) → List (Node M)
  | [] => []
  | n :: rest => n.strip_ws :: Node.strip_ws_list rest
end

/-- `is_custom`, `el.rs` lines 312-314. -/
def El.is_custom (e : El M) : Bool :=
  match e.tag with
  | .custom _ => true
  | _ => false

/-!
Spec-side observers. These are not source code: they are the carriers
in which structural claims (shape preservation at every depth, frame
conditions on `node_ws`, callback scrubbing) are stated, so that a
source function can be compared against them.
-/

/-- The kind-and-arity skeleton of a tree: at every depth it records
whether each node is an element or a text leaf, and the length and
order of every element's children list. -/
inductive NodeShape : Type where
  | elem : List NodeShape → NodeShape
  | text : NodeShape

mutual
/-- The skeleton of an element. -/
def El.shape : El M → NodeShape
  | .mk _ _ _ _ c _ _ _ _ _ => .elem (Node.shape_list c)

/-- The skeleton of a node. -/
def Node.shape : Node M → NodeShape
  | .Element el => el.shape
  | .Text _ => .text

/-- The skeletons of a children list, in order. -/
def Node.shape_list : List (Node M) → List NodeShape
  | [] => []
  | n :: rest => n.shape :: Node.shape_list rest
end

mutual
/-- Follows the spec's words: the element with `node_ws` set to `None`
at every depth and every other field of every node unchanged. Two
elements agree on everything but their native handles exactly when
`eraseWs` identifies them. -/
def El.eraseWs : El M → El M
  | .mk t a s ehm c ns _nws r k ih => .mk t a s ehm (Node.eraseWs_list c) ns none r k ih

/-- `eraseWs` on a node. -/
def Node.eraseWs : Node M → Node M
  | .Element el => .Element el.eraseWs
  | .Text t => .Text t

/-- `eraseWs` on a children list. -/
def Node.eraseWs_list : List (Node M) → List (Node M)
  | [] => []
  | n :: rest => n.eraseWs :: Node.eraseWs_list rest
end

mutual
/-- Follows the amended claim's words: the element with the event
handler registration set and the `insert_handlers` list emptied on
itself and on every descendant element, and everything else unchanged. -/
def El.scrubCallbacks : El M → El M
  | .mk t a s _ehm c ns nws r k _ih =>
    .mk t a s EventHandlerManager.new (Node.scrubCallbacks_list c) ns nws r k []

/-- `scrubCallbacks` on a node. -/
def Node.scrubCallbacks : Node M → Node M
  | .Element el => .Element el.scrubCallbacks
  | .Text t => .Text t

/-- `scrubCallbacks` on a children list. -/
def Node.scrubCallbacks_list : List (Node M) → List (Node M)
  | [] => []
  | n :: rest => n.scrubCallbacks :: Node.scrubCallbacks_list rest
end

mutual
/-- Decidable check: `node_ws` is `None` on the element and on every
descendant element. -/
def El.nodeWsAllNone : El M → Bool
  | .mk _ _ _ _ c _ nws _ _ _ => nws.isNone && Node.nodeWsAllNone_list c

/-- `nodeWsAllNone` on a node. -/
def Node.nodeWsAllNone : Node M → Bool
  | .Element el => el.nodeWsAllNone
  | .Text _ => true

/-- `nodeWsAllNone` on a children list. -/
def Node.nodeWsAllNone_list : List (Node M) → Bool
  | [] => true
  | n :: rest => n.nodeWsAllNone && Node.nodeWsAllNone_list rest
end

/-!
Shared helper lemmas, proved by mutual structural induction on the
`El`/`Node` family.
-/

mutual
/-- `map_msg` leaves the skeleton of an element unchanged. -/
theorem El.shape_map_msg_el (e : El M) (f : M → N) : (e.map_msg f).shape = e.shape := by
  cases e with
  | mk t a s ehm c ns nws r k ih =>
    simp only [El.map_msg, El.shape]
    rw [Node.shape_list_map_msg]

/-- `map_msg` leaves the skeleton of a node unchanged. -/
theorem Node.shape_map_msg_node (n : Node M) (f : M → N) : (n.map_msg f).shape = n.shape := by
  cases n with
  | Element el => simpa only [Node.map_msg, Node.shape] using El.shape_map_msg_el el f
  | Text t => rfl

/-- `map_msg` leaves the skeletons of a children list unchanged. -/
theorem Node.shape_list_map_msg (l : List (Node M)) (f : M → N) :
    Node.shape_list (Node.map_msg_list l f) = Node.shape_list l := by
  cases l with
  | nil => rfl
  | cons n rest =>
    simp only [Node.map_msg_list, Node.shape_list]
    rw [Node.shape_map_msg_node, Node.shape_list_map_msg]
end

mutual
/-- The clone of an element is exactly the callback-scrubbed element. -/
theorem El.clone_eq_scrub_el (e : El M) : e.clone = e.scrubCallbacks := by
  cases e with
  | mk t a s ehm c ns nws r k ih =>
    simp only [El.clone, El.scrubCallbacks, EventHandlerManager.clone,
      EventHandlerManager.new]
    rw [Node.clone_list_eq_scrub]

/-- The clone of a node is exactly the callback-scrubbed node. -/
theorem Node.clone_eq_scrub_node (n : Node M) : n.clone = n.scrubCallbacks := by
  cases n with
  | Element el => simpa only [Node.clone, Node.scrubCallbacks] using congrArg Node.Element (El.clone_eq_scrub_el el)
  | Text t => rfl

/-- Clone and scrub agree on children lists. -/
theorem Node.clone_list_eq_scrub (l : List (Node M)) :
    Node.clone_list l = Node.scrubCallbacks_list l := by
  cases l with
  | nil => rfl
  | cons n rest =>
    simp only [Node.clone_list, Node.scrubCallbacks_list]
    rw [Node.clone_eq_scrub_node, Node.clone_list_eq_scrub]
end

mutual
/-- Serialization is invariant under erasing native handles. -/
theorem El.toMarkup_eraseWs_el (e : El M) : e.eraseWs.toMarkup = e.toMarkup := by
  cases e with
  | mk t a s ehm c ns nws r k ih =>
    simp only [El.eraseWs, El.toMarkup]
    rw [Node.toMarkup_list_eraseWs]

/-- Serialization of a node is invariant under erasing native handles. -/
theorem Node.toMarkup_eraseWs_node (n : Node M) : n.eraseWs.toMarkup = n.toMarkup := by
  cases n with
  | Element el => simpa only [Node.eraseWs, Node.toMarkup] using El.toMarkup_eraseWs_el el
  | Text t => rfl

/-- Serialization of a children list is invariant under erasing native
handles. -/
theorem Node.toMarkup_list_eraseWs (l : List (Node M)) :
    Node.toMarkup_list (Node.eraseWs_list l) = Node.toMarkup_list l := by
  cases l with
  | nil => rfl
  | cons n rest =>
    simp only [Node.eraseWs_list, Node.toMarkup_list]
    rw [Node.toMarkup_eraseWs_node, Node.toMarkup_list_eraseWs]
end

mutual
/-- Stripping native handles is exactly `eraseWs`. -/
theorem El.strip_eq_eraseWs_el (e : El M) :
    e.strip_ws_nodes_from_self_and_children = e.eraseWs := by
  cases e with
  | mk t a s ehm c ns nws r k ih =>
    simp only [El.strip_ws_nodes_from_self_and_children, El.eraseWs]
    rw [Node.strip_list_eq_eraseWs]

/-- Stripping a node is exactly `eraseWs`. -/
theorem Node.strip_eq_eraseWs_node (n : Node M) : n.strip_ws = n.eraseWs := by
  cases n with
  | Element el =>
    simpa only [Node.strip_ws, Node.eraseWs] using
      congrArg Node.Element (El.strip_eq_eraseWs_el el)
  | Text t => rfl

/-- Stripping a children list is exactly `eraseWs`. -/
theorem Node.strip_list_eq_eraseWs (l : List (Node M)) :
    Node.strip_ws_list l = Node.eraseWs_list l := by
  cases l with
  | nil => rfl
  | cons n rest =>
    simp only [Node.strip_ws_list, Node.eraseWs_list]
    rw [Node.strip_eq_eraseWs_node, Node.strip_list_eq_eraseWs]
end

mutual
/-- After `eraseWs` every native handle at every depth is `None`. -/
theorem El.eraseWs_allNone_el (e : El M) : e.eraseWs.nodeWsAllNone = true := by
  cases e with
  | mk t a s ehm c ns nws r k ih =>
    simp only [El.eraseWs, El.nodeWsAllNone, Option.isNone_none, Bool.true_and]
    exact Node.eraseWs_list_allNone c

/-- After `eraseWs` every native handle in a node is `None`. -/
theorem Node.eraseWs_allNone_node (n : Node M) : n.eraseWs.nodeWsAllNone = true := by
  cases n with
  | Element el => simpa only [Node.eraseWs, Node.nodeWsAllNone] using El.eraseWs_allNone_el el
  | Text t => rfl

/-- After `eraseWs` every native handle in a children list is `None`. -/
theorem Node.eraseWs_list_allNone (l : List (Node M)) :
    Node.nodeWsAllNone_list (Node.eraseWs_list l) = true := by
  cases l with
  | nil => rfl
  | cons n rest =>
    simp only [Node.eraseWs_list, Node.nodeWsAllNone_list, Bool.and_eq_true]
    exact ⟨Node.eraseWs_allNone_node n, Node.eraseWs_list_allNone rest⟩
end

/-- `List.foldl` over string append distributes over a prepended
segment. -/
theorem foldl_str_append (l : List String) :
    ∀ a b : String, l.foldl (· ++ ·) (a ++ b) = a ++ l.foldl (· ++ ·) b := by
  induction l with
  | nil => intro a b; rfl
  | cons x xs ih =>
    intro a b
    simp only [List.foldl]
    rw [String.append_assoc, ih]

/-- `String.join` unfolds on a cons cell. -/
theorem string_join_cons (s : String) (l : List String) :
    String.join (s :: l) = s ++ String.join l := by
  show l.foldl (· ++ ·) ("" ++ s) = s ++ l.foldl (· ++ ·) ""
  rw [show ("" ++ s) = (s ++ "") by simp, foldl_str_append]

/-- `Node.toMarkup_list` is concatenation of rendered children. -/
theorem Node.toMarkup_list_eq_join (l : List (Node M)) :
    Node.toMarkup_list l = String.join (l.map Node.toMarkup) := by
  induction l with
  | nil => rfl
  | cons n rest ih =>
    simp only [Node.toMarkup_list, List.map, string_join_cons, ih]

/-- `map_msg` keeps the length of a children list. -/
theorem Node.map_msg_list_length (l : List (Node M)) (f : M → N) :
    (Node.map_msg_list l f).length = l.length := by
  induction l with
  | nil => rfl
  | cons n rest ih => simp [Node.map_msg_list, ih]

/-- Lookup on the ordered attribute list (`IndexMap::get`): the value
under the first entry holding the key. -/
def Attrs.getGo (k : At) : List (At × AtValue) → Option AtValue
  | [] => none
  | (k', v) :: rest => if k' = k then some v else Attrs.getGo k rest

/-- `IndexMap::get` on `Attrs`. -/
def Attrs.get (a : Attrs) (k : At) : Option AtValue :=
  Attrs.getGo k a.vals

/-- When the key is absent, `entry(..).or_insert` appends it at the
end with the default value. -/
theorem Attrs.entryGo_of_get_none (k : At) (g : AtValue → AtValue) (d : AtValue)
    (l : List (At × AtValue)) (h : Attrs.getGo k l = none) :
    Attrs.entryGo k g d l = l ++ [(k, d)] := by
  induction l with
  | nil => rfl
  | cons p rest ih =>
    obtain ⟨k', v⟩ := p
    by_cases hk : k' = k
    · simp [Attrs.getGo, hk] at h
    · simp only [Attrs.getGo, if_neg hk] at h
      simp [Attrs.entryGo, if_neg hk, ih h]

/-- When the key is present, `entry(..).and_modify` rewrites the stored
value through the modifier and nothing else. -/
theorem Attrs.getGo_entryGo_of_some (k : At) (g : AtValue → AtValue) (d : AtValue)
    (l : List (At × AtValue)) (v : AtValue) (h : Attrs.getGo k l = some v) :
    Attrs.getGo k (Attrs.entryGo k g d l) = some (g v) := by
  induction l with
  | nil => simp [Attrs.getGo] at h
  | cons p rest ih =>
    obtain ⟨k', w⟩ := p
    by_cases hk : k' = k
    · simp only [Attrs.getGo, if_pos hk, Option.some.injEq] at h
      simp only [Attrs.entryGo, if_pos hk, Attrs.getGo, h]
    · simp only [Attrs.getGo, if_neg hk] at h
      simp only [Attrs.entryGo, if_neg hk, Attrs.getGo, ih h]

/-- Follows the claim's words: the attribute list of the opening tag,
in the claimed order — the stored attributes, then a synthesized
`style` attribute when the rendered style is non-empty, then a
synthesized `xmlns` attribute when a namespace is set. -/
def El.openTagAttrs (e : El M) : Attrs :=
  let a1 := if (Style.toStr e.style).isEmpty then e.attrs
    else e.attrs.add At.StyleAt (Style.toStr e.style)
  match e.ns with
  | some n => a1.add At.Xmlns n.asStr
  | none => a1

/-!
The claims.
-/

/-- Claim C1: for every element `e` and conversion function `f`,
`map_msg(e, f)` has the same `tag`, `key`, `attributes`, `style`,
`namespace`, `native_handle` (`node_ws`) and `native_backrefs` (`refs`)
as `e`, and the number and order of children are preserved at every
depth of the tree (the kind-and-arity skeleton is unchanged). -/
theorem map_msg_preserves_identity_and_structure (e : El M) (f : M → N) :
    (e.map_msg f).tag = e.tag ∧ (e.map_msg f).key = e.key ∧
    (e.map_msg f).attrs = e.attrs ∧ (e.map_msg f).style = e.style ∧
    (e.map_msg f).ns = e.ns ∧ (e.map_msg f).node_ws = e.node_ws ∧
    (e.map_msg f).refs = e.refs ∧
    (e.map_msg f).children.length = e.children.length ∧
    (e.map_msg f).shape = e.shape := by
  refine ⟨?_, ?_, ?_, ?_, ?_, ?_, ?_, ?_, El.shape_map_msg_el e f⟩ <;>
    cases e with
    | mk t a s ehm c ns nws r k ih => ?_
  case _ => rfl
  case _ => rfl
  case _ => rfl
  case _ => rfl
  case _ => rfl
  case _ => rfl
  case _ => rfl
  case _ =>
    simpa only [El.map_msg, El.children] using Node.map_msg_list_length c f

/-- Claim C2: for every element `e`, `clone(e)` has an empty event
handler registration set, regardless of the registrations on `e`. -/
theorem clone_event_handlers_empty (e : El M) :
    e.clone.event_handler_manager = EventHandlerManager.new := by
  cases e
  rfl

/-- An element carrying one post-insertion callback; used to exhibit
that cloning is not structure-preserving on callback lists. -/
def childWithCallback : El Unit :=
  .mk (Tag.named "span") Attrs.empty Style.empty EventHandlerManager.new [] none none [] none
    [⟨fun _ => some ()⟩]

/-- A parent whose only child carries a post-insertion callback. -/
def parentWithCallbackChild : El Unit :=
  .mk (Tag.named "div") Attrs.empty Style.empty EventHandlerManager.new
    [Node.Element childWithCallback] none none [] none []

/-- Claim C3, counterexample: for the concrete parent whose only child
carries one `insert_handlers` entry, `clone(e).children` is not
structurally equal to `e.children` — the child's callback list is reset
to empty by the clone. -/
theorem clone_children_not_structurally_equal :
    (El.clone parentWithCallbackChild).children ≠ parentWithCallbackChild.children := by
  intro hEq
  simp only [parentWithCallbackChild, childWithCallback, El.clone, Node.clone_list, Node.clone,
    EventHandlerManager.clone, EventHandlerManager.new, El.children, List.cons.injEq, and_true,
    Node.Element.injEq, El.mk.injEq, true_and] at hEq
  exact List.noConfusion hEq

/-- Claim C3, amended: for every element `e`, `clone(e).children` is
`e.children` with, on every descendant element, the event handler
registration set and the `insert_callbacks` list reset to empty; and
`clone(e).insert_callbacks` is empty regardless of
`e.insert_callbacks`. -/
theorem clone_children_scrubbed (e : El M) :
    e.clone.children = Node.scrubCallbacks_list e.children ∧ e.clone.insert_handlers = [] := by
  cases e with
  | mk t a s ehm c ns nws r k ih =>
    exact ⟨by simpa only [El.clone, El.children] using Node.clone_list_eq_scrub c, rfl⟩

/-- Claim C4: for every element `e` and conversion function `f`, the
`insert_callbacks` (`insert_handlers`) list of `map_msg(e, f)` is
empty, regardless of the insert callbacks present on `e`. -/
theorem map_msg_insert_handlers_empty (e : El M) (f : M → N) :
    (e.map_msg f).insert_handlers = [] := by
  cases e
  rfl

/-- Claim C5: for every element `e` whose `native_handle` (`node_ws`)
is `None`, every operation of this core leaves the handle `None`; the
constructors create it `None`, and no operation ever populates it.
(`get_text` and serialization return strings and cannot touch the
element in this pure embedding.) -/
theorem node_ws_never_populated (e : El M) (hws : e.node_ws = none) :
    (∀ t : Tag, (El.empty t : El M).node_ws = none) ∧
    (∀ t : Tag, (El.empty_svg t : El M).node_ws = none) ∧
    (∀ c : Node M, (e.add_child c).node_ws = none) ∧
    (∀ k : At, ∀ v : AtValue, (e.add_attr k v).node_ws = none) ∧
    (∀ n : String, (e.add_class n).node_ws = none) ∧
    (∀ k : St, ∀ v : String, (e.add_style k v).node_ws = none) ∧
    (∀ hd : EventHandler M, (e.add_event_handler hd).node_ws = none) ∧
    (∀ t : String, (e.add_text t).node_ws = none) ∧
    (∀ t : String, (e.replace_text t).node_ws = none) ∧
    (e.clone.node_ws = none) ∧
    (∀ f : M → N, (e.map_msg f).node_ws = none) ∧
    (e.strip_ws_nodes_from_self_and_children.node_ws = none) := by
  cases e with
  | mk t a s ehm c ns nws r k ih =>
    simp only [El.node_ws] at hws
    subst hws
    exact ⟨fun _ => rfl, fun _ => rfl, fun _ => rfl, fun _ _ => rfl, fun _ => rfl,
      fun _ _ => rfl, fun _ => rfl, fun _ => rfl, fun _ => rfl, rfl, fun _ => rfl, rfl⟩

/-- Witness for C5 at a concrete element with no attached handle. -/
theorem node_ws_never_populated_witness :
    ((El.empty (Tag.named "div") : El Unit).node_ws = none) ∧
    (((El.empty (Tag.named "div") : El Unit).add_text "hi").node_ws = none) ∧
    ((El.empty (Tag.named "div") : El Unit).clone.node_ws = none) := by
  have h := node_ws_never_populated (N := Unit) (El.empty (Tag.named "div") : El Unit) rfl
  exact ⟨rfl, h.2.2.2.2.2.2.2.1 "hi", h.2.2.2.2.2.2.2.2.2.1⟩

/-- Claim C6: for every element `e` and string `t`, `replace_text(t)`
removes every text child (keeping the non-text children in relative
order) and appends exactly one new text child holding `t` at the end;
in particular the last child is `Text t`, everything before it is
non-text, and on children `[Text "a", Element span, Text "b"]` the
result is `[Element span, Text "x"]` for `t = "x"`. -/
theorem replace_text_spec (e : El M) (t : String) :
    (e.replace_text t).children
      = e.children.filter (fun n => !n.is_text) ++ [Node.new_text t] ∧
    (e.replace_text t).children.getLast? = some (Node.Text (Text.new t)) ∧
    ((e.replace_text t).children.dropLast.all (fun n => !n.is_text)) = true ∧
    ((El.mk (Tag.named "div") Attrs.empty Style.empty EventHandlerManager.new
        [Node.Text (Text.new "a"), Node.Element (El.empty (Tag.named "span") : El M),
         Node.Text (Text.new "b")] none none [] none []).replace_text "x").children
      = [Node.Element (El.empty (Tag.named "span") : El M), Node.Text (Text.new "x")] := by
  obtain ⟨tg, a, s, ehm, c, ns, nws, r, k, ih⟩ := e
  refine ⟨rfl, ?_, ?_, rfl⟩
  · simp only [El.replace_text, El.children, Node.new_text]
    exact List.getLast?_concat _
  · simp only [El.replace_text, El.children, List.dropLast_concat, List.all_eq_true]
    intro x hx
    exact (List.mem_filter.mp hx).2

/-- Claim C7: `add_class(n)` sets the `class` attribute to `n` when it
is absent (appending the entry at the end of the ordered attribute
map), and when it is present with a non-empty string value it appends a
single space and then `n`, with no deduplication and no whitespace
normalization; on an element with no `class` attribute, `add_class "b"`
then `add_class "c"` yields the value `"b c"`. -/
theorem add_class_spec :
    (∀ e : El M, ∀ n : String, e.attrs.get At.Class = none →
      (e.add_class n).attrs = ⟨e.attrs.vals ++ [(At.Class, AtValue.Some n)]⟩) ∧
    (∀ e : El M, ∀ n v : String, e.attrs.get At.Class = some (AtValue.Some v) →
      v.isEmpty = false →
      (e.add_class n).attrs.get At.Class = some (AtValue.Some (v ++ " " ++ n))) ∧
    ((((El.empty (Tag.named "div") : El M).add_class "b").add_class "c").attrs.get At.Class
      = some (AtValue.Some "b c")) := by
  refine ⟨?_, ?_, rfl⟩
  · intro e n h
    obtain ⟨tg, a, s, ehm, c, ns, nws, r, k, ih⟩ := e
    simp only [El.attrs, Attrs.get] at h
    simp only [El.add_class, El.attrs]
    exact congrArg Attrs.mk (Attrs.entryGo_of_get_none At.Class _ _ a.vals h)
  · intro e n v h hv
    obtain ⟨tg, a, s, ehm, c, ns, nws, r, k, ih⟩ := e
    simp only [El.attrs, Attrs.get] at h
    simp only [El.add_class, El.attrs, Attrs.get]
    rw [Attrs.getGo_entryGo_of_some At.Class _ _ a.vals _ h]
    simp [hv, String.append_assoc]

/-- Witness for C7: the absent case on a fresh element and the
present-non-empty case after one `add_class`. -/
theorem add_class_spec_witness :
    ((El.empty (Tag.named "p") : El Unit).attrs.get At.Class = none) ∧
    ((El.empty (Tag.named "p") : El Unit).add_class "b").attrs
      = ⟨(El.empty (Tag.named "p") : El Unit).attrs.vals ++ [(At.Class, AtValue.Some "b")]⟩ ∧
    ("b".isEmpty = false) ∧
    ((((El.empty (Tag.named "p") : El Unit).add_class "b").add_class "c").attrs.get At.Class
      = some (AtValue.Some ("b" ++ " " ++ "c"))) := by
  refine ⟨rfl, add_class_spec.1 _ "b" rfl, rfl, ?_⟩
  exact add_class_spec.2.1 ((El.empty (Tag.named "p") : El Unit).add_class "b") "c" "b" rfl rfl

/-- Claim C8: serialization emits `<tag`, then the stored attributes,
then a synthesized `style` attribute when the rendered style is
non-empty, then a synthesized `xmlns` attribute when a namespace is
set, then `>`, then the children in order; exactly the void tags
(matched case-insensitively) emit no closing tag and every other tag
always does; an empty `img` with `src="x.png"` serializes to
`<img src="x.png">` and an empty `div` to `<div></div>`. -/
theorem serialization_spec (e : El M) :
    (e.toMarkup
      = "<" ++ e.tag.toStr
        ++ (if (Attrs.toStr e.openTagAttrs).isEmpty then ""
            else " " ++ Attrs.toStr e.openTagAttrs)
        ++ ">"
        ++ String.join (e.children.map Node.toMarkup)
        ++ (if empty_elements.contains (strToLower e.tag.toStr) then ""
            else "</" ++ e.tag.toStr ++ ">")) ∧
    (((El.empty (Tag.named "img") : El Unit).add_attr "src" (AtValue.Some "x.png")).toMarkup
      = "<img src=\"x.png\">") ∧
    ((El.empty (Tag.named "div") : El Unit).toMarkup = "<div></div>") := by
  refine ⟨?_, by decide, by decide⟩
  obtain ⟨tg, a, s, ehm, c, ns, nws, r, k, ih⟩ := e
  simp only [El.toMarkup, El.openTagAttrs, El.tag, El.attrs, El.style, El.ns, El.children,
    Node.toMarkup_list_eq_join]
  by_cases hA : (Attrs.toStr (match ns with
      | some n => (if (Style.toStr s).isEmpty then a else a.add At.StyleAt (Style.toStr s)).add
          At.Xmlns n.asStr
      | none => if (Style.toStr s).isEmpty then a else a.add At.StyleAt (Style.toStr s))).isEmpty
  all_goals by_cases hT : strToLower tg.toStr ∈ empty_elements
  all_goals simp [hA, hT, String.append_assoc]

/-- A concrete element carrying an attached native handle. -/
def divWithHandle : El Unit :=
  .mk (Tag.named "div") Attrs.empty Style.empty EventHandlerManager.new [] none (some 5) [] none []

/-- The same element without the native handle. -/
def divWithoutHandle : El Unit :=
  .mk (Tag.named "div") Attrs.empty Style.empty EventHandlerManager.new [] none none [] none []

/-- Claim C9: serialization does not depend on the native handle — two
elements that agree on every field except `node_ws` (at every depth,
i.e. they are identified by `eraseWs`) serialize to identical markup —
and serializing the same element twice gives the same string. -/
theorem serialization_ignores_node_ws (a b : El M) (hab : a.eraseWs = b.eraseWs) :
    a.toMarkup = b.toMarkup ∧ a.toMarkup = a.toMarkup := by
  refine ⟨?_, rfl⟩
  calc a.toMarkup = a.eraseWs.toMarkup := (El.toMarkup_eraseWs_el a).symm
    _ = b.eraseWs.toMarkup := by rw [hab]
    _ = b.toMarkup := El.toMarkup_eraseWs_el b

/-- Witness for C9: the two concrete elements differing only in
`node_ws` serialize identically. -/
theorem serialization_ignores_node_ws_witness :
    (El.eraseWs divWithHandle = El.eraseWs divWithoutHandle) ∧
    El.toMarkup divWithHandle = El.toMarkup divWithoutHandle :=
  ⟨rfl, (serialization_ignores_node_ws divWithHandle divWithoutHandle rfl).1⟩

/-- Claim C10: after `strip_ws_nodes_from_self_and_children`, the
native handle of the element and of every element below it is `None`,
and every other field of every node (tag, attributes, style, event
handlers, children structure and order, namespace, refs, key,
insert handlers, text content) is unchanged — stripping coincides with
the pure handle-erasure `eraseWs`. -/
theorem strip_ws_spec (e : El M) :
    e.strip_ws_nodes_from_self_and_children.nodeWsAllNone = true ∧
    e.strip_ws_nodes_from_self_and_children = e.eraseWs := by
  refine ⟨?_, El.strip_eq_eraseWs_el e⟩
  rw [El.strip_eq_eraseWs_el]
  exact El.eraseWs_allNone_el e

end Seed
